import Mathlib

/-!
Verification development for the UNION-AUTO_BOT launcher (`index.js`).

The file shallowly embeds the launcher's pure logic:
  * the semantic-version parsing and comparison of `checkVersion`,
  * the JSON cleanup and parse step of `fetchVersionsJson` (ECMAScript
    `JSON.parse` is modelled by an executable parser over the JSON
    fragment the version feed uses: whitespace, literals, integers,
    escape-free strings, arrays and objects),
  * the file-sync pass (`downloadFile` / `updateFiles`) over an explicit
    association-list file system, with HTTP outcomes passed as data,
  * the script dispatch of `runScript` with its three outcome paths,
  * the nested menu controller (`mainMenu`, `sepoliaToHoleskyMenu`,
    `holeskyToSepoliaMenu`) as a state machine over input lines, with
    console/process actions recorded as an effect trace.
Network, timers and child processes are represented by explicit outcome
parameters; console output is modelled as the list of printed lines.
-/

namespace UnionBot

/-! ## Version strings: `split('.').map(Number)` -/

/-- Splits a character list at every `'.'`, keeping empty groups,
modelling JavaScript `s.split('.')`. -/
def splitDots : List Char → List (List Char)
  | [] => [[]]
  | c :: cs =>
    let r := splitDots cs
    if c = '.' then [] :: r
    else (c :: r.headD []) :: r.tail

/-- Numeric value of a decimal digit character. -/
def digitVal (c : Char) : Nat := c.toNat - 48

/-- Value of a digit string read in base 10. -/
def digitsToNat (cs : List Char) : Nat :=
  cs.foldl (fun a c => a * 10 + digitVal c) 0

/-- Models JavaScript `Number` on the strings the version feed uses:
a string of decimal digits denotes its value and the empty string
denotes `0` (as `Number("")` does); the `NaN` result on other strings
is collapsed to `0` and never relied upon in any theorem. -/
def numberOf (cs : List Char) : Int :=
  if cs.all Char.isDigit then (digitsToNat cs : Int) else 0

/-- Models `version.split('.').map(Number)` from `checkVersion`. -/
def versionParts (s : String) : List Int :=
  (splitDots s.toList).map numberOf

/-- The hardcoded local version (`CURRENT_VERSION = '1.0.0'`). -/
def CURRENT_VERSION : String := "1.0.0"

/-! ## The comparator and the up-to-date check of `checkVersion` -/

/-- Component `i` of a parts list; `0` stands for the components the
well-formed dotted triples of the feed always have. -/
def part (v : List Int) (i : Nat) : Int := v.getD i 0

/-- The sort comparator of `checkVersion`, its three-iteration loop
unrolled: at the first index where the parts differ it returns
`bParts[i] - aParts[i]` (descending order), and `0` when the first
three components agree. -/
def cmpVer (a b : List Int) : Int :=
  if part a 0 = part b 0 then
    if part a 1 = part b 1 then
      if part a 2 = part b 2 then 0
      else part b 2 - part a 2
    else part b 1 - part a 1
  else part b 0 - part a 0

/-- The `isLatest` loop of `checkVersion`, unrolled: scanning left to
right, a strictly smaller local component yields `false`, a strictly
greater one stops with `true`, and full agreement of the first three
components yields `true`. -/
def isLatest (cur latest : List Int) : Bool :=
  if part cur 0 < part latest 0 then false
  else if part latest 0 < part cur 0 then true
  else if part cur 1 < part latest 1 then false
  else if part latest 1 < part cur 1 then true
  else if part cur 2 < part latest 2 then false
  else true

/-- Insertion of one version into a list sorted by the `checkVersion`
comparator (non-positive comparison keeps the new element first). -/
def insertVer (x : List Int) : List (List Int) → List (List Int)
  | [] => [x]
  | y :: ys => if cmpVer x y ≤ 0 then x :: y :: ys else y :: insertVer x ys

/-- `versions.sort(comparator)`: a stable sort by the descending
componentwise comparator. -/
def sortVers (l : List (List Int)) : List (List Int) :=
  l.foldr insertVer []

/-- `checkVersion`'s verdict: sort the remote versions descending, take
the first as latest, and run the `isLatest` loop against it. -/
def checkUpToDate (cur : List Int) (remotes : List (List Int)) : Bool :=
  isLatest cur ((sortVers remotes).headD [])

/-- Whether `checkVersion` enters the update-offer branch: only when
some versions were fetched and the `isLatest` check failed. -/
def updateOffered (cur : List Int) (remotes : List (List Int)) : Bool :=
  if remotes.isEmpty then false else !(checkUpToDate cur remotes)

/-- The first three components of a parts list as a triple. -/
def key (v : List Int) : Int × Int × Int := (part v 0, part v 1, part v 2)

/-- Lexicographic order on component triples. -/
def lexLe (x y : Int × Int × Int) : Prop :=
  x.1 < y.1 ∨ (x.1 = y.1 ∧ (x.2.1 < y.2.1 ∨ (x.2.1 = y.2.1 ∧ x.2.2 ≤ y.2.2)))

/-- The comparator relation used by the sort. -/
def vleP (a b : List Int) : Prop := cmpVer a b ≤ 0

theorem cmp_le_iff (a b : List Int) : vleP a b ↔ lexLe (key b) (key a) := by
  unfold vleP cmpVer lexLe key
  split_ifs <;> simp_all <;> omega

theorem lexLe_refl (x : Int × Int × Int) : lexLe x x := by
  unfold lexLe; omega

theorem lexLe_trans (x y z : Int × Int × Int) :
    lexLe x y → lexLe y z → lexLe x z := by
  unfold lexLe; omega

theorem lexLe_total (x y : Int × Int × Int) : lexLe x y ∨ lexLe y x := by
  unfold lexLe; omega

theorem vleP_refl (a : List Int) : vleP a a :=
  (cmp_le_iff a a).2 (lexLe_refl _)

theorem vleP_trans (a b c : List Int) : vleP a b → vleP b c → vleP a c := by
  intro h1 h2
  exact (cmp_le_iff a c).2
    (lexLe_trans _ _ _ ((cmp_le_iff b c).1 h2) ((cmp_le_iff a b).1 h1))

theorem vleP_total (a b : List Int) : vleP a b ∨ vleP b a := by
  rcases lexLe_total (key b) (key a) with h | h
  · exact Or.inl ((cmp_le_iff a b).2 h)
  · exact Or.inr ((cmp_le_iff b a).2 h)

theorem isLatest_iff (cur lat : List Int) :
    isLatest cur lat = true ↔ lexLe (key lat) (key cur) := by
  unfold isLatest lexLe key
  split_ifs <;> simp_all <;> omega

theorem insertVer_perm (x : List Int) (l : List (List Int)) :
    List.Perm (insertVer x l) (x :: l) := by
  induction l with
  | nil => simp [insertVer]
  | cons y ys ih =>
    unfold insertVer
    split_ifs with h
    · exact List.Perm.refl _
    · exact (ih.cons y).trans (List.Perm.swap x y ys)

theorem sortVers_perm (l : List (List Int)) : List.Perm (sortVers l) l := by
  induction l with
  | nil => simp [sortVers]
  | cons a l ih =>
    have : sortVers (a :: l) = insertVer a (sortVers l) := rfl
    rw [this]
    exact (insertVer_perm a (sortVers l)).trans (ih.cons a)

theorem pairwise_insertVer (x : List Int) (l : List (List Int))
    (h : l.Pairwise vleP) : (insertVer x l).Pairwise vleP := by
  induction l with
  | nil => simp [insertVer, vleP]
  | cons y ys ih =>
    unfold insertVer
    split_ifs with hc
    · refine List.Pairwise.cons ?_ h
      intro z hz
      rcases List.mem_cons.1 hz with rfl | hz2
      · exact hc
      · exact vleP_trans x y z hc ((List.pairwise_cons.1 h).1 z hz2)
    · have hyx : vleP y x := by
        rcases vleP_total x y with h1 | h1
        · exact absurd h1 hc
        · exact h1
      rcases List.pairwise_cons.1 h with ⟨hy, hys⟩
      refine List.Pairwise.cons ?_ (ih hys)
      intro z hz
      rcases List.mem_cons.1 ((insertVer_perm x ys).mem_iff.1 hz) with rfl | hz2
      · exact hyx
      · exact hy z hz2

theorem sortVers_pairwise (l : List (List Int)) :
    (sortVers l).Pairwise vleP := by
  induction l with
  | nil => simp [sortVers]
  | cons a l ih => exact pairwise_insertVer a (sortVers l) ih

/-- Claim C1: for every non-empty remote version list, `checkVersion`'s
verdict (sort descending by the componentwise comparator, take the first
as latest, run the left-to-right `isLatest` loop) reports up to date
exactly when the local triple is lexicographically greater-or-equal to
every remote triple; concretely, local 1.0.0 against remotes 1.0.0 and
0.9.0 is up to date with no update offered, and against remote 1.2.0 an
update is offered. -/
theorem checkVersion_sorts_and_compares :
    (∀ (cur : List Int) (remotes : List (List Int)), remotes ≠ [] →
      (checkUpToDate cur remotes = true ↔
        ∀ r ∈ remotes, lexLe (key r) (key cur)))
    ∧ checkUpToDate (versionParts "1.0.0")
        [versionParts "1.0.0", versionParts "0.9.0"] = true
    ∧ updateOffered (versionParts "1.0.0")
        [versionParts "1.0.0", versionParts "0.9.0"] = false
    ∧ checkUpToDate (versionParts "1.0.0") [versionParts "1.2.0"] = false
    ∧ updateOffered (versionParts "1.0.0") [versionParts "1.2.0"] = true := by
  refine ⟨?_, by decide, by decide, by decide, by decide⟩
  intro cur remotes hne
  have hperm := sortVers_perm remotes
  rcases hs : sortVers remotes with _ | ⟨h, t⟩
  · rw [hs] at hperm
    exact absurd hperm.symm.eq_nil hne
  · rw [hs] at hperm
    have hhead : checkUpToDate cur remotes = isLatest cur h := by
      unfold checkUpToDate
      rw [hs]
      rfl
    have hpw := sortVers_pairwise remotes
    rw [hs] at hpw
    rcases List.pairwise_cons.1 hpw with ⟨hmax, _⟩
    rw [hhead, isLatest_iff]
    constructor
    · intro hle r hr
      have hrs : r ∈ h :: t := hperm.symm.subset hr
      rcases List.mem_cons.1 hrs with rfl | hrt
      · exact hle
      · exact lexLe_trans _ _ _ ((cmp_le_iff h r).1 (hmax r hrt)) hle
    · intro hall
      exact hall h (hperm.subset (List.mem_cons_self h t))

/-- Witness for C1 at local 1.0.0 and remotes 1.0.0, 0.9.0. -/
theorem checkVersion_sorts_and_compares_witness :
    ([versionParts "1.0.0", versionParts "0.9.0"] ≠ ([] : List (List Int)))
    ∧ (checkUpToDate (versionParts "1.0.0")
        [versionParts "1.0.0", versionParts "0.9.0"] = true ↔
        ∀ r ∈ [versionParts "1.0.0", versionParts "0.9.0"],
          lexLe (key r) (key (versionParts "1.0.0"))) :=
  ⟨by decide,
    checkVersion_sorts_and_compares.1 (versionParts "1.0.0")
      [versionParts "1.0.0", versionParts "0.9.0"] (by decide)⟩

/-- Claim C10: the comparison in `checkVersion` inspects only the first
three dot-separated components: whenever two parts lists agree on those,
the comparator returns 0 and the `isLatest` loop accepts, so extra
components (local 1.0.0 against remote 1.0.0.5) never trigger the
update-offer path. -/
theorem checkVersion_first_three_components_only :
    (∀ a b : List Int, key a = key b →
      cmpVer a b = 0 ∧ isLatest a b = true)
    ∧ cmpVer (versionParts "1.0.0") (versionParts "1.0.0.5") = 0
    ∧ isLatest (versionParts "1.0.0") (versionParts "1.0.0.5") = true
    ∧ updateOffered (versionParts "1.0.0") [versionParts "1.0.0.5"] = false := by
  refine ⟨?_, by decide, by decide, by decide⟩
  intro a b h
  unfold key at h
  rw [Prod.ext_iff, Prod.ext_iff] at h
  rcases h with ⟨h1, h2, h3⟩
  simp only at h1 h2 h3
  constructor
  · unfold cmpVer
    simp [h1, h2, h3]
  · unfold isLatest
    simp [h1, h2, h3]

/-- Witness for C10 at the pair 1.0.0 and 1.0.0.5. -/
theorem checkVersion_first_three_components_only_witness :
    key (versionParts "1.0.0") = key (versionParts "1.0.0.5")
    ∧ (cmpVer (versionParts "1.0.0") (versionParts "1.0.0.5") = 0
      ∧ isLatest (versionParts "1.0.0") (versionParts "1.0.0.5") = true) :=
  ⟨by decide,
    checkVersion_first_three_components_only.1 (versionParts "1.0.0")
      (versionParts "1.0.0.5") (by decide)⟩

/-! ## `runScript`: dispatching one external script -/

/-- The three outcomes `runScript` distinguishes: `fs.access` rejecting
(file absent or inaccessible), the spawned child raising a launch
error (its `error` event), or the child exiting with a status code. -/
inductive ScriptOutcome where
  | inaccessible (msg : String)
  | spawnErr (msg : String)
  | exitedCode (code : Int)
deriving DecidableEq

/-- What one `runScript` call does: the console lines it prints, whether
it waits for an Enter acknowledgment, and whether it redisplays the
main menu afterwards. -/
structure RunResult where
  log : List String
  ackRequired : Bool
  menuRedisplayed : Bool
deriving DecidableEq

/-- The acknowledgment prompt printed before reading Enter. -/
def enterMenuMsg : String := "Press Enter to return to the menu..."

/-- Models `runScript`: the `fs.access` catch block, the child `error`
handler and the child `exit` handler. Every path ends in `mainMenu()`;
in JavaScript the error paths print their report and the Enter prompt,
await input, and only then return to the menu, while a zero exit goes
straight back. The function is total: no path rethrows. -/
def runScript (scriptName : String) : ScriptOutcome → RunResult
  | .inaccessible msg =>
    ⟨["❌ Script " ++ scriptName ++ " not found or inaccessible: " ++ msg,
      enterMenuMsg], true, true⟩
  | .spawnErr msg =>
    ⟨["❌ Error running " ++ scriptName ++ ": " ++ msg, enterMenuMsg],
      true, true⟩
  | .exitedCode c =>
    if c = 0 then ⟨[], false, true⟩
    else ⟨["⚠️ " ++ scriptName ++ " exited with code " ++ toString c,
      enterMenuMsg], true, true⟩

/-- Claim C4: for every script identifier, an absent/inaccessible file,
a launch error and a non-zero exit each report the condition and require
an Enter acknowledgment before the menu is redisplayed, without
throwing; a zero exit redisplays the menu with no extra prompt. -/
theorem runScript_outcome_paths :
    ∀ (name : String) (o : ScriptOutcome),
      (runScript name o).menuRedisplayed = true
      ∧ (o = ScriptOutcome.exitedCode 0 →
          (runScript name o).ackRequired = false ∧ (runScript name o).log = [])
      ∧ (o ≠ ScriptOutcome.exitedCode 0 →
          (runScript name o).ackRequired = true
          ∧ (runScript name o).log ≠ []
          ∧ (runScript name o).log.getLast? = some enterMenuMsg) := by
  intro name o
  rcases o with msg | msg | c
  · refine ⟨rfl, fun h => ?_, fun _ => ⟨rfl, by simp [runScript], by simp [runScript]⟩⟩
    cases h
  · refine ⟨rfl, fun h => ?_, fun _ => ⟨rfl, by simp [runScript], by simp [runScript]⟩⟩
    cases h
  · by_cases hc : c = 0
    · subst hc
      exact ⟨rfl, fun _ => ⟨rfl, rfl⟩, fun h => absurd rfl h⟩
    · refine ⟨?_, fun h => ?_, fun _ => ⟨?_, ?_, ?_⟩⟩
      · simp [runScript, hc]
      · cases h
        exact absurd rfl hc
      · simp [runScript, hc]
      · simp [runScript, hc]
      · simp [runScript, hc]

/-- Witness for C4 at a missing-script outcome. -/
theorem runScript_outcome_paths_witness :
    (ScriptOutcome.inaccessible "ENOENT" ≠ ScriptOutcome.exitedCode 0)
    ∧ (runScript "SepoliaToHoleskyEth.js"
        (ScriptOutcome.inaccessible "ENOENT")).ackRequired = true
    ∧ (runScript "SepoliaToHoleskyEth.js"
        (ScriptOutcome.inaccessible "ENOENT")).log ≠ []
    ∧ (runScript "SepoliaToHoleskyEth.js"
        (ScriptOutcome.inaccessible "ENOENT")).log.getLast? = some enterMenuMsg :=
  ⟨by decide,
    ((runScript_outcome_paths "SepoliaToHoleskyEth.js"
      (ScriptOutcome.inaccessible "ENOENT")).2.2 (by decide)).1,
    ((runScript_outcome_paths "SepoliaToHoleskyEth.js"
      (ScriptOutcome.inaccessible "ENOENT")).2.2 (by decide)).2.1,
    ((runScript_outcome_paths "SepoliaToHoleskyEth.js"
      (ScriptOutcome.inaccessible "ENOENT")).2.2 (by decide)).2.2⟩

/-! ## The menu controller as a state machine

`mainMenu`, `sepoliaToHoleskyMenu` and `holeskyToSepoliaMenu` each print
a screen, read one trimmed line, and dispatch on it.  `menuStep` maps the
current menu node and one input line to the next node plus a trace of
console/process actions; a token choice moves to `dispatched`, which
models the controller awaiting `runScript` (no further menu input is
consumed there).  `menuShown m` stands for the screen render of `m`
(banner plus options), and `delayMs 1500` for the `setTimeout` before an
invalid choice re-renders the same node. -/

/-- The menu node the controller is showing, or the terminal states. -/
inductive MenuState where
  | root
  | sepoliaTokens
  | holeskyTokens
  | dispatched (script : String)
  | exited (code : Nat)
deriving DecidableEq

/-- Observable actions of one controller step. -/
inductive Effect where
  | menuShown (m : MenuState)
  | invalidMsg
  | delayMs (n : Nat)
  | launchAttempt (script : String)
  | runUpdateCheck
  | goodbye
  | closeInput
  | exitProc (code : Nat)
deriving DecidableEq

/-- One step of the controller: dispatch on the input line exactly as
the `if`/`switch` chains of `mainMenu`, `sepoliaToHoleskyMenu` and
`holeskyToSepoliaMenu` do. -/
def menuStep : MenuState → String → MenuState × List Effect
  | .root, choice =>
    if choice = "1" then (.sepoliaTokens, [.menuShown .sepoliaTokens])
    else if choice = "2" then (.holeskyTokens, [.menuShown .holeskyTokens])
    else if choice = "3" then (.root, [.runUpdateCheck, .menuShown .root])
    else if choice = "4" then (.exited 0, [.goodbye, .closeInput, .exitProc 0])
    else (.root, [.invalidMsg, .delayMs 1500, .menuShown .root])
  | .sepoliaTokens, choice =>
    if choice = "1" then
      (.dispatched "SepoliaToHoleskyEth.js",
        [.launchAttempt "SepoliaToHoleskyEth.js"])
    else if choice = "2" then
      (.dispatched "SepoliaToHoleskyLinkTransfer.js",
        [.launchAttempt "SepoliaToHoleskyLinkTransfer.js"])
    else if choice = "3" then
      (.dispatched "SepoliaToHoleskyEurcTransfer.js",
        [.launchAttempt "SepoliaToHoleskyEurcTransfer.js"])
    else if choice = "4" then
      (.dispatched "SepoliaToHoleskyUsdcTransfer.js",
        [.launchAttempt "SepoliaToHoleskyUsdcTransfer.js"])
    else if choice = "5" then (.root, [.menuShown .root])
    else (.sepoliaTokens, [.invalidMsg, .delayMs 1500, .menuShown .sepoliaTokens])
  | .holeskyTokens, choice =>
    if choice = "1" then
      (.dispatched "HoleskyToSepoliaETH.js",
        [.launchAttempt "HoleskyToSepoliaETH.js"])
    else if choice = "2" then
      (.dispatched "HoleskyToSepoliaLink.js",
        [.launchAttempt "HoleskyToSepoliaLink.js"])
    else if choice = "3" then
      (.dispatched "HoleskyToSepoliaEurc.js",
        [.launchAttempt "HoleskyToSepoliaEurc.js"])
    else if choice = "4" then
      (.dispatched "HoleskyToSepoliaUsdc.js",
        [.launchAttempt "HoleskyToSepoliaUsdc.js"])
    else if choice = "5" then (.root, [.menuShown .root])
    else (.holeskyTokens, [.invalidMsg, .delayMs 1500, .menuShown .holeskyTokens])
  | .dispatched s, _ => (.dispatched s, [])
  | .exited c, _ => (.exited c, [])

/-- Runs the controller over a sequence of input lines, accumulating the
effect trace. -/
def runInputs : MenuState → List String → MenuState × List Effect
  | m, [] => (m, [])
  | m, i :: is =>
    let r := menuStep m i
    let r2 := runInputs r.1 is
    (r2.1, r.2 ++ r2.2)

/-- The input lines each interactive menu node recognizes. -/
def expectedInputs : MenuState → List String
  | .root => ["1", "2", "3", "4"]
  | .sepoliaTokens => ["1", "2", "3", "4", "5"]
  | .holeskyTokens => ["1", "2", "3", "4", "5"]
  | .dispatched _ => []
  | .exited _ => []

/-- Whether an effect is a script-launch attempt. -/
def Effect.isLaunch : Effect → Bool
  | .launchAttempt _ => true
  | _ => false

/-- Models `mainMenu().catch(...)`: a rejected top-level promise is
logged and the process exits with code 1; otherwise the process ends
with whatever code the menu loop reached. -/
def topLevelExitCode : Except String Nat → Nat
  | .ok c => c
  | .error _ => 1

/-- Claim C5: an input line outside a menu's expected digits prints an
error and, after the fixed delay, redisplays the same menu node; any
finite sequence of such invalid inputs leaves the menu state unchanged
(and the step function is total, so the controller cannot crash). -/
theorem invalid_input_keeps_menu :
    (∀ (m : MenuState) (i : String),
      (m = MenuState.root ∨ m = MenuState.sepoliaTokens ∨ m = MenuState.holeskyTokens) →
      i ∉ expectedInputs m →
      menuStep m i = (m, [Effect.invalidMsg, Effect.delayMs 1500, Effect.menuShown m]))
    ∧ (∀ (m : MenuState) (inputs : List String),
      (m = MenuState.root ∨ m = MenuState.sepoliaTokens ∨ m = MenuState.holeskyTokens) →
      (∀ i ∈ inputs, i ∉ expectedInputs m) →
      (runInputs m inputs).1 = m) := by
  have hstep : ∀ (m : MenuState) (i : String),
      (m = MenuState.root ∨ m = MenuState.sepoliaTokens ∨ m = MenuState.holeskyTokens) →
      i ∉ expectedInputs m →
      menuStep m i = (m, [Effect.invalidMsg, Effect.delayMs 1500, Effect.menuShown m]) := by
    intro m i hm hi
    rcases hm with rfl | rfl | rfl <;>
      simp [expectedInputs] at hi <;>
      simp [menuStep, hi.1, hi.2.1, hi.2.2.1, hi.2.2.2]
  refine ⟨hstep, ?_⟩
  intro m inputs hm hinv
  induction inputs with
  | nil => rfl
  | cons i is ih =>
    have hhead := hstep m i hm (hinv i (List.mem_cons_self i is))
    show (runInputs (menuStep m i).1 is).1 = m
    rw [hhead]
    exact ih (fun j hj => hinv j (List.mem_cons_of_mem i hj))

/-- Witness for C5 at the root menu with invalid inputs. -/
theorem invalid_input_keeps_menu_witness :
    (MenuState.root = MenuState.root ∨ MenuState.root = MenuState.sepoliaTokens
      ∨ MenuState.root = MenuState.holeskyTokens)
    ∧ ("9" ∉ expectedInputs MenuState.root)
    ∧ menuStep MenuState.root "9"
        = (MenuState.root,
          [Effect.invalidMsg, Effect.delayMs 1500, Effect.menuShown MenuState.root])
    ∧ (runInputs MenuState.root ["9", "hello", ""]).1 = MenuState.root :=
  ⟨Or.inl rfl, by decide,
    invalid_input_keeps_menu.1 MenuState.root "9" (Or.inl rfl) (by decide),
    invalid_input_keeps_menu.2 MenuState.root ["9", "hello", ""] (Or.inl rfl)
      (by decide)⟩

/-- Counterexample to claim C7: on the input sequence 1, 2, 5, 4 the
controller does launch the LINK path — choice 2 at the Sepolia→Holesky
token menu dispatches `SepoliaToHoleskyLinkTransfer.js` (Back is choice
5) — and the run does not end in a clean exit-0 root-menu exit. -/
theorem menu_sequence_1254_launches_link :
    Effect.launchAttempt "SepoliaToHoleskyLinkTransfer.js"
      ∈ (runInputs MenuState.root ["1", "2", "5", "4"]).2
    ∧ (runInputs MenuState.root ["1", "2", "5", "4"]).1 ≠ MenuState.exited 0 := by
  decide

/-- Claim C7 (amended): the back choice at the Sepolia→Holesky token
menu is 5, so the sequence 1, 5, 4 shows the submenu, goes back to the
root without launching any script, and exits with status 0 having
attempted no script dispatch. -/
theorem menu_sequence_154_exits_cleanly :
    runInputs MenuState.root ["1", "5", "4"]
      = (MenuState.exited 0,
        [Effect.menuShown MenuState.sepoliaTokens, Effect.menuShown MenuState.root,
          Effect.goodbye, Effect.closeInput, Effect.exitProc 0])
    ∧ ((runInputs MenuState.root ["1", "5", "4"]).2.all
        (fun e => ! e.isLaunch)) = true := by
  decide

/-- Claim C8: choice 4 at the root menu closes the input stream and
terminates with exit status 0, after which no further effect is
produced on any input; a rejected top-level promise at startup yields
exit status 1. -/
theorem root_exit_and_startup_codes :
    menuStep MenuState.root "4"
      = (MenuState.exited 0, [Effect.goodbye, Effect.closeInput, Effect.exitProc 0])
    ∧ (∀ inputs : List String, runInputs (MenuState.exited 0) inputs
        = (MenuState.exited 0, []))
    ∧ (∀ e : String, topLevelExitCode (Except.error e) = 1) := by
  refine ⟨rfl, ?_, fun e => rfl⟩
  intro inputs
  induction inputs with
  | nil => rfl
  | cons i is ih =>
    show ((runInputs (MenuState.exited 0) is).1,
      ([] : List Effect) ++ (runInputs (MenuState.exited 0) is).2)
      = (MenuState.exited 0, [])
    rw [ih]
    rfl

/-! ## `downloadFile` / `updateFiles`: the file-sync pass

The local directory is an association list from file name to content;
writing prepends, reading takes the most recent binding.  The HTTP GET
of each entry's `download_url` is passed in as an explicit outcome. -/

/-- The compiled-in exclusion list (`EXCLUDED_FILES`). -/
def EXCLUDED_FILES : List String := ["private_keys.txt"]

/-- A remote file entry as returned by `fetchRepoFiles`. -/
structure RFile where
  name : String
  download_url : String
deriving DecidableEq

/-- Outcome of the HTTP GET for one file's raw bytes. -/
inductive DlOutcome where
  | ok (data : String)
  | httpFail (status : Nat)
  | netErr (msg : String)
deriving DecidableEq

/-- The local directory: newest binding first. -/
def FileSys : Type := List (String × String)

/-- Reading a file: the most recent write to that name. -/
def fsRead (fs : FileSys) (n : String) : Option String :=
  match fs with
  | [] => none
  | (k, v) :: rest => if k = n then some v else fsRead rest n

/-- Models `downloadFile`: an excluded name is skipped before any
network or filesystem access; otherwise a 200 response is written to
the local path of the same name, and a non-200 status or a network
error is logged without touching the filesystem. -/
def downloadFile (f : RFile) (o : DlOutcome) (fs : FileSys) :
    FileSys × List String :=
  if f.name ∈ EXCLUDED_FILES then
    (fs, ["ℹ️ Skipping " ++ f.name ++ " (excluded file)"])
  else
    match o with
    | .ok data => ((f.name, data) :: fs, ["✅ Downloaded " ++ f.name])
    | .httpFail status =>
      (fs, ["❌ Failed to download " ++ f.name ++ " (Status: "
        ++ toString status ++ ")"])
    | .netErr msg =>
      (fs, ["❌ Error downloading " ++ f.name ++ ": " ++ msg])

/-- The download loop of `updateFiles`: every entry is processed in
order, each with its own outcome, regardless of earlier failures. -/
def updateFiles (entries : List (RFile × DlOutcome)) (fs : FileSys) :
    FileSys × List String :=
  match entries with
  | [] => (fs, [])
  | (f, o) :: rest =>
    let r := downloadFile f o fs
    let r2 := updateFiles rest r.1
    (r2.1, r.2 ++ r2.2)

theorem downloadFile_preserves_other (f : RFile) (o : DlOutcome)
    (fs : FileSys) (n : String) (hn : f.name ≠ n) :
    fsRead (downloadFile f o fs).1 n = fsRead fs n := by
  unfold downloadFile
  split_ifs with h
  · rfl
  · rcases o with data | status | msg
    · show fsRead ((f.name, data) :: fs) n = fsRead fs n
      have hstep : fsRead ((f.name, data) :: fs) n
          = if f.name = n then some data else fsRead fs n := rfl
      rw [hstep, if_neg hn]
    · rfl
    · rfl

/-- Claim C3: an entry named in the exclusion set leaves the filesystem
untouched and prints the skip message, so no sync pass ever overwrites
`private_keys.txt`; and a failing entry does not stop the pass — an
entry appearing after any entries whatever, with a 200 outcome and a
non-excluded name, is still written. -/
theorem sync_skips_excluded_and_continues :
    (∀ (f : RFile) (o : DlOutcome) (fs : FileSys),
      f.name ∈ EXCLUDED_FILES →
      downloadFile f o fs
        = (fs, ["ℹ️ Skipping " ++ f.name ++ " (excluded file)"]))
    ∧ (∀ (es : List (RFile × DlOutcome)) (fs : FileSys),
      fsRead (updateFiles es fs).1 "private_keys.txt"
        = fsRead fs "private_keys.txt")
    ∧ (∀ (es : List (RFile × DlOutcome)) (f : RFile) (data : String)
        (fs : FileSys), f.name ∉ EXCLUDED_FILES →
      fsRead (updateFiles (es ++ [(f, DlOutcome.ok data)]) fs).1 f.name
        = some data) := by
  refine ⟨?_, ?_, ?_⟩
  · intro f o fs hf
    unfold downloadFile
    rw [if_pos hf]
  · intro es
    induction es with
    | nil => intro fs; rfl
    | cons e rest ih =>
      intro fs
      rcases e with ⟨f, o⟩
      show fsRead (updateFiles rest (downloadFile f o fs).1).1 "private_keys.txt"
        = fsRead fs "private_keys.txt"
      rw [ih]
      by_cases hf : f.name ∈ EXCLUDED_FILES
      · unfold downloadFile
        rw [if_pos hf]
      · have hne : f.name ≠ "private_keys.txt" := by
          intro h
          rw [h] at hf
          exact hf (by decide)
        exact downloadFile_preserves_other f o fs _ hne
  · intro es f data
    induction es with
    | nil =>
      intro fs hf
      show fsRead (updateFiles [] (downloadFile f (DlOutcome.ok data) fs).1).1 f.name
        = some data
      unfold downloadFile
      rw [if_neg hf]
      show fsRead ((f.name, data) :: fs) f.name = some data
      unfold fsRead
      rw [if_pos rfl]
    | cons e rest ih =>
      intro fs hf
      rcases e with ⟨g, o⟩
      show fsRead (updateFiles (rest ++ [(f, DlOutcome.ok data)])
        (downloadFile g o fs).1).1 f.name = some data
      exact ih _ hf

/-- Witness for C3: the excluded entry is skipped and the last entry of
a pass with a failing middle entry is still written. -/
theorem sync_skips_excluded_and_continues_witness :
    (("private_keys.txt" : String) ∈ EXCLUDED_FILES)
    ∧ downloadFile ⟨"private_keys.txt", "u"⟩ (DlOutcome.ok "stolen") []
        = ([], ["ℹ️ Skipping private_keys.txt (excluded file)"])
    ∧ fsRead (updateFiles
        [(⟨"a.js", "u1"⟩, DlOutcome.netErr "timeout"),
          (⟨"b.js", "u2"⟩, DlOutcome.ok "code")] []).1 "b.js" = some "code"
    ∧ fsRead (updateFiles
        [(⟨"private_keys.txt", "u"⟩, DlOutcome.ok "stolen")]
        [("private_keys.txt", "mykeys")]).1 "private_keys.txt"
        = fsRead [("private_keys.txt", "mykeys")] "private_keys.txt" :=
  ⟨by decide,
    sync_skips_excluded_and_continues.1 ⟨"private_keys.txt", "u"⟩
      (DlOutcome.ok "stolen") [] (by decide),
    sync_skips_excluded_and_continues.2.2
      [(⟨"a.js", "u1"⟩, DlOutcome.netErr "timeout")] ⟨"b.js", "u2"⟩ "code" []
      (by decide),
    sync_skips_excluded_and_continues.2.1
      [(⟨"private_keys.txt", "u"⟩, DlOutcome.ok "stolen")]
      [("private_keys.txt", "mykeys")]⟩

/-! ## `fetchVersionsJson`: body cleanup and JSON parsing

The cleanup chain of `fetchVersionsJson` is
`data.replace(/\s+/g, ' ').replace(/,]/g, ']').replace(/,}/g, '}')`:
every maximal whitespace run becomes a single space, then each
two-character occurrence of a comma directly followed by a closing
bracket loses its comma.  ECMAScript `JSON.parse` is modelled by an
executable parser over the grammar fragment the version feed uses
(whitespace, `null`/`true`/`false`, integer numbers, escape-free
strings, arrays, objects); the curly-brace characters are named `lcb`
and `rcb`. -/

/-- Left curly brace. -/
def lcb : Char := Char.ofNat 123

/-- Right curly brace. -/
def rcb : Char := Char.ofNat 125

/-- The whitespace class of the `\s` regex, restricted to the
characters the feed can contain. -/
def isJsWs (c : Char) : Bool :=
  (c == ' ') || (c == '\t') || (c == '\n') || (c == '\r')

/-- Replaces every maximal whitespace run by one space, tracking
whether the previous character was whitespace. -/
def normWsAux : Bool → List Char → List Char
  | _, [] => []
  | prevWs, c :: cs =>
    if isJsWs c then
      if prevWs then normWsAux true cs else ' ' :: normWsAux true cs
    else c :: normWsAux false cs

/-- Models `replace(/\s+/g, ' ')`. -/
def normWs (cs : List Char) : List Char := normWsAux false cs

/-- Models a global replace of the two-character pattern comma-then-
`close` by `close` alone, scanning left to right without rescanning
replaced output, as `String.prototype.replace` with a global regex
does. -/
def removeCommaClose (close : Char) : List Char → List Char
  | [] => []
  | [c] => [c]
  | c :: c2 :: cs =>
    if c = ',' ∧ c2 = close then close :: removeCommaClose close cs
    else c :: removeCommaClose close (c2 :: cs)

/-- The full cleanup chain applied to a string response body. -/
def cleanup (s : String) : String :=
  String.mk (removeCommaClose rcb (removeCommaClose ']' (normWs s.toList)))

/-- JSON values as `JSON.parse` produces them. -/
inductive Json where
  | null
  | bool (b : Bool)
  | num (n : Int)
  | str (s : String)
  | arr (xs : List Json)
  | obj (kvs : List (String × Json))

/-- Drops leading JSON whitespace (space, tab, line feed, carriage
return). -/
def skipWs : List Char → List Char
  | [] => []
  | c :: cs =>
    if c = ' ' ∨ c = '\t' ∨ c = '\n' ∨ c = '\r' then skipWs cs else c :: cs

/-- Parses the remainder of a JSON string after the opening quote,
returning its characters and the input after the closing quote.  The
feed uses no escape sequences, so a backslash is rejected rather than
decoded. -/
def parseStrChars : List Char → Option (List Char × List Char)
  | [] => none
  | c :: rest =>
    if c = '"' then some ([], rest)
    else if c = '\\' then none
    else if c.toNat < 32 then none
    else
      match parseStrChars rest with
      | some (s, r) => some (c :: s, r)
      | none => none

/-- Splits off a maximal run of decimal digits. -/
def takeDigits : List Char → List Char × List Char
  | [] => ([], [])
  | c :: rest =>
    if c.isDigit then
      let r := takeDigits rest
      (c :: r.1, r.2)
    else ([], c :: rest)

/-- Parses a nonempty digit run as a number. -/
def parseNum (cs : List Char) : Option (Int × List Char) :=
  let r := takeDigits cs
  if r.1 = [] then none else some ((digitsToNat r.1 : Int), r.2)

mutual

/-- Parses one JSON value (fuel-indexed; the fuel passed by `parseJson`
exceeds any possible nesting of its input). -/
def parseVal : Nat → List Char → Option (Json × List Char)
  | 0, _ => none
  | fuel + 1, cs =>
    match skipWs cs with
    | [] => none
    | c :: rest =>
      if c = 'n' then
        match rest with
        | 'u' :: 'l' :: 'l' :: r2 => some (Json.null, r2)
        | _ => none
      else if c = 't' then
        match rest with
        | 'r' :: 'u' :: 'e' :: r2 => some (Json.bool true, r2)
        | _ => none
      else if c = 'f' then
        match rest with
        | 'a' :: 'l' :: 's' :: 'e' :: r2 => some (Json.bool false, r2)
        | _ => none
      else if c = '"' then
        match parseStrChars rest with
        | some (s, r2) => some (Json.str (String.mk s), r2)
        | none => none
      else if c = '[' then
        match skipWs rest with
        | ']' :: r2 => some (Json.arr [], r2)
        | r2 => parseArrItems fuel r2 []
      else if c = lcb then
        match skipWs rest with
        | d :: r2 =>
          if d = rcb then some (Json.obj [], r2)
          else parseObjItems fuel (d :: r2) []
        | [] => none
      else if c = '-' then
        match parseNum rest with
        | some (n, r2) => some (Json.num (-n), r2)
        | none => none
      else if c.isDigit then
        match parseNum (c :: rest) with
        | some (n, r2) => some (Json.num n, r2)
        | none => none
      else none

/-- Parses the items of a non-empty array after its opening bracket. -/
def parseArrItems : Nat → List Char → List Json → Option (Json × List Char)
  | 0, _, _ => none
  | fuel + 1, cs, acc =>
    match parseVal fuel cs with
    | none => none
    | some (v, rest) =>
      match skipWs rest with
      | ',' :: r2 => parseArrItems fuel r2 (acc ++ [v])
      | ']' :: r2 => some (Json.arr (acc ++ [v]), r2)
      | _ => none

/-- Parses the members of a non-empty object after its opening brace. -/
def parseObjItems : Nat → List Char → List (String × Json) →
    Option (Json × List Char)
  | 0, _, _ => none
  | fuel + 1, cs, acc =>
    match skipWs cs with
    | c :: rest =>
      if c = '"' then
        match parseStrChars rest with
        | some (k, r2) =>
          match skipWs r2 with
          | ':' :: r3 =>
            match parseVal fuel r3 with
            | some (v, r4) =>
              match skipWs r4 with
              | d :: r5 =>
                if d = ',' then
                  parseObjItems fuel r5 (acc ++ [(String.mk k, v)])
                else if d = rcb then
                  some (Json.obj (acc ++ [(String.mk k, v)]), r5)
                else none
              | [] => none
            | none => none
          | _ => none
        | none => none
      else none
    | [] => none

end

/-- Models `JSON.parse`: one value, then only trailing whitespace. -/
def parseJson (s : String) : Option Json :=
  match parseVal (2 * s.length + 8) s.toList with
  | some (v, rest) => if skipWs rest = [] then some v else none
  | none => none

/-- The intended repair the spec describes: remove every comma that is
followed by optional whitespace and then a closing bracket, after
whitespace normalization.  A body is recoverable in the spec's sense —
its only defects are trailing commas and irregular whitespace — exactly
when this repair yields a parseable text. -/
def stripTrailingCommas : List Char → List Char
  | [] => []
  | c :: cs =>
    if c = ',' then
      match skipWs cs with
      | d :: _ =>
        if d = ']' ∨ d = rcb then stripTrailingCommas cs
        else ',' :: stripTrailingCommas cs
      | [] => ',' :: stripTrailingCommas cs
    else c :: stripTrailingCommas cs

/-- A body whose only defects are trailing commas and irregular
whitespace, formalized as: the intended repair makes it parse. -/
def recoverable (s : String) : Bool :=
  (parseJson (String.mk (stripTrailingCommas (normWs s.toList)))).isSome

/-! ## `fetchVersionsJson`: mapping the parsed body and the HTTP paths -/

/-- One mapped element of the version feed: the `VERSION`,
`UPDATE_DATE` and `CHANGES` properties of the parsed object (`none`
models the `undefined` a missing property yields; the `moment`
formatting of the date, which never throws, is kept as the raw parsed
value). -/
structure VEntry where
  version : Option Json
  update_date : Option Json
  changes : Option Json

/-- Property lookup on a parsed object: `JSON.parse` keeps the last
binding of a duplicated key. -/
def getField (kvs : List (String × Json)) (k : String) : Option Json :=
  match kvs with
  | [] => none
  | (k2, v) :: rest =>
    match getField rest k with
    | some r => some r
    | none => if k2 = k then some v else none

/-- One step of the `data.map` callback: property access on an object
or a primitive yields the property or `undefined`, while `null` makes
the access throw. -/
def entryOfJson : Json → Except String VEntry
  | Json.null => Except.error "Cannot read properties of null (reading VERSION)"
  | Json.obj kvs =>
    Except.ok ⟨getField kvs "VERSION", getField kvs "UPDATE_DATE",
      getField kvs "CHANGES"⟩
  | _ => Except.ok ⟨none, none, none⟩

/-- `data.map` over the elements, stopping at the first throw. -/
def mapEntriesList : List Json → Except String (List VEntry)
  | [] => Except.ok []
  | j :: js =>
    match entryOfJson j with
    | Except.error e => Except.error e
    | Except.ok v =>
      match mapEntriesList js with
      | Except.error e => Except.error e
      | Except.ok vs => Except.ok (v :: vs)

/-- `data.map(...)`: only an array has `map`; anything else throws. -/
def mapEntries : Json → Except String (List VEntry)
  | Json.arr xs => mapEntriesList xs
  | _ => Except.error "data.map is not a function"

/-- The throwing part of the 200-status branch: clean up and parse the
string body, then map it; every `Except.error` is a JavaScript throw
that the surrounding `try` catches. -/
def parsePhase (body : String) : Except String (List VEntry) :=
  match parseJson (cleanup body) with
  | none => Except.error "Unexpected token in JSON"
  | some j => mapEntries j

/-- The outcome of the `axios.get`: a response with a status and a
string body, or a thrown network error with its `code` and message. -/
inductive HttpOutcome where
  | resp (status : Nat) (body : String)
  | netErr (code : String) (msg : String)

/-- Models `fetchVersionsJson`: the version list it returns together
with the console lines it prints.  A 200 response runs the parse/map
phase with its throws caught; any other status logs the status (plus
the 403/404 hints) and returns an empty list; a thrown network error
logs the message (plus the connection hint on `ECONNREFUSED` /
`ETIMEDOUT`) and returns an empty list. -/
def fetchVersionsJson : HttpOutcome → List VEntry × List String
  | HttpOutcome.resp status body =>
    if status = 200 then
      match parsePhase body with
      | Except.ok l => (l, [])
      | Except.error e => ([], ["❌ Error fetching versions: " ++ e])
    else
      ([], ["❌ Failed to fetch versions from GitHub (Status: "
          ++ toString status ++ ")"]
        ++ (if status = 403 then ["ℹ️ GitHub API rate limit exceeded"] else [])
        ++ (if status = 404 then ["ℹ️ Version file (versions.json) not found"]
          else []))
  | HttpOutcome.netErr code msg =>
    ([], ["❌ Error fetching versions: " ++ msg]
      ++ (if code = "ECONNREFUSED" ∨ code = "ETIMEDOUT" then
        ["💡 Check your network connection."] else []))

/-- The line `checkVersion` prints when no versions were fetched. -/
def unableToCheckMsg : String :=
  "✅ Unable to check for updates. Continuing with current version."

/-- The return-to-menu prompt `checkVersion` prints. -/
def pressEnterMainMsg : String := "Press Enter to return to the main menu..."

/-- The console report of `checkVersion` as a function of the fetched
version parts: an empty fetch is reported as unable-to-check, an
up-to-date comparison as running-the-latest, and otherwise the
update-offer headline (whose interpolated latest-version payload is not
tracked here). -/
def checkVersionMsgs (versions : List (List Int)) : List String :=
  if versions.isEmpty then [unableToCheckMsg, pressEnterMainMsg]
  else if checkUpToDate (versionParts CURRENT_VERSION) versions then
    ["✅ You are running the latest version (" ++ CURRENT_VERSION ++ ")",
      pressEnterMainMsg]
  else ["⚠️ New version available", pressEnterMainMsg]

/-- Counterexample to claim C2: the body enclosed in brackets `[1,` +
newline + `]` has as its only defects a trailing comma and irregular
whitespace (removing the comma yields parseable JSON, so it is
recoverable), yet the cleanup collapses the newline to a space, the
comma is then not directly followed by the bracket, the `,]` removal
never fires, and the cleaned body still fails to parse. -/
theorem cleanup_spaced_trailing_comma_fails :
    recoverable "[1,\n]" = true
    ∧ parseJson (cleanup "[1,\n]") = none
    ∧ (fetchVersionsJson (HttpOutcome.resp 200 "[1,\n]")).1 = [] :=
  ⟨rfl, rfl, rfl⟩

/-- Claim C2 (amended): the cleanup repairs a trailing comma only when
it directly precedes its closing bracket after whitespace collapsing —
such bodies parse and produce the version list — while a trailing comma
separated from its bracket by whitespace can leave the body unparseable;
in every unparseable case the parse error is caught and the function
returns the empty list instead of throwing. -/
theorem cleanup_adjacent_trailing_commas :
    (∀ body : String, parseJson (cleanup body) = none →
      (fetchVersionsJson (HttpOutcome.resp 200 body)).1 = [])
    ∧ (parseJson (cleanup "[ \x7b \"VERSION\" : \"1.1.0\",\n\t\"UPDATE_DATE\" : \"2025-01-01\",  \"CHANGES\" : [ \"a\" ,\"b\",],\x7d,]")).isSome = true
    ∧ (fetchVersionsJson (HttpOutcome.resp 200 "[ \x7b \"VERSION\" : \"1.1.0\",\n\t\"UPDATE_DATE\" : \"2025-01-01\",  \"CHANGES\" : [ \"a\" ,\"b\",],\x7d,]")).1
      = [⟨some (Json.str "1.1.0"), some (Json.str "2025-01-01"),
          some (Json.arr [Json.str "a", Json.str "b"])⟩]
    ∧ parseJson (cleanup "[1, ]") = none := by
  refine ⟨?_, rfl, rfl, rfl⟩
  intro body h
  have hp : parsePhase body = Except.error "Unexpected token in JSON" := by
    unfold parsePhase
    rw [h]
  simp [fetchVersionsJson, hp]

/-- Witness for the amended C2 at a genuinely invalid body. -/
theorem cleanup_adjacent_trailing_commas_witness :
    parseJson (cleanup "oops") = none
    ∧ (fetchVersionsJson (HttpOutcome.resp 200 "oops")).1 = [] :=
  ⟨rfl, cleanup_adjacent_trailing_commas.1 "oops" rfl⟩

/-- Claim C9: `fetchVersionsJson` is total at its interface — for every
HTTP outcome it returns a list, and on a 200 response every throw of
the parse/map phase (a body that is not JSON, or whose JSON is not an
array of version objects) is caught inside the function, printing the
error message and yielding the empty list rather than propagating. -/
theorem fetchVersionsJson_never_throws :
    ∀ o : HttpOutcome,
      (∃ l : List VEntry, (fetchVersionsJson o).1 = l)
      ∧ (∀ body, o = HttpOutcome.resp 200 body →
          (∀ e, parsePhase body = Except.error e →
            fetchVersionsJson o = ([], ["❌ Error fetching versions: " ++ e]))
          ∧ (∀ l, parsePhase body = Except.ok l →
            fetchVersionsJson o = (l, []))) := by
  intro o
  refine ⟨⟨(fetchVersionsJson o).1, rfl⟩, ?_⟩
  intro body ho
  subst ho
  constructor
  · intro e he
    simp [fetchVersionsJson, he]
  · intro l hl
    simp [fetchVersionsJson, hl]

/-- Witness for C9 at the 200 response whose body is the non-array
JSON text `42`, which makes the mapping step throw. -/
theorem fetchVersionsJson_never_throws_witness :
    parsePhase "42" = Except.error "data.map is not a function"
    ∧ fetchVersionsJson (HttpOutcome.resp 200 "42")
      = ([], ["❌ Error fetching versions: " ++ "data.map is not a function"]) :=
  ⟨rfl,
    ((fetchVersionsJson_never_throws (HttpOutcome.resp 200 "42")).2 "42" rfl).1
      "data.map is not a function" rfl⟩

/-- Claim C6: a non-200 status or a thrown network error makes
`fetchVersionsJson` report the condition on the console (with the
rate-limit, not-found and connection hints) and return the empty list
rather than throwing; `checkVersion` reports an empty fetch as unable
to check, and the update-check menu choice returns to the root menu,
never to a terminated state. -/
theorem fetch_failure_nonfatal :
    (∀ (status : Nat) (body : String), status ≠ 200 →
      (fetchVersionsJson (HttpOutcome.resp status body)).1 = []
      ∧ (fetchVersionsJson (HttpOutcome.resp status body)).2 ≠ []
      ∧ (status = 403 →
          "ℹ️ GitHub API rate limit exceeded"
            ∈ (fetchVersionsJson (HttpOutcome.resp status body)).2)
      ∧ (status = 404 →
          "ℹ️ Version file (versions.json) not found"
            ∈ (fetchVersionsJson (HttpOutcome.resp status body)).2))
    ∧ (∀ code msg : String,
        (fetchVersionsJson (HttpOutcome.netErr code msg)).1 = []
        ∧ (fetchVersionsJson (HttpOutcome.netErr code msg)).2 ≠ []
        ∧ (code = "ECONNREFUSED" →
            "💡 Check your network connection."
              ∈ (fetchVersionsJson (HttpOutcome.netErr code msg)).2))
    ∧ checkVersionMsgs [] = [unableToCheckMsg, pressEnterMainMsg]
    ∧ (menuStep MenuState.root "3").1 = MenuState.root
    ∧ (∀ c : Nat, (menuStep MenuState.root "3").1 ≠ MenuState.exited c) := by
  refine ⟨?_, ?_, rfl, by decide, ?_⟩
  · intro status body h
    refine ⟨by simp [fetchVersionsJson, h], by simp [fetchVersionsJson, h],
      ?_, ?_⟩
    · intro h403
      subst h403
      simp [fetchVersionsJson]
    · intro h404
      subst h404
      simp [fetchVersionsJson]
  · intro code msg
    refine ⟨rfl, by simp [fetchVersionsJson], ?_⟩
    intro hc
    subst hc
    simp [fetchVersionsJson]
  · intro c
    have hr : (menuStep MenuState.root "3").1 = MenuState.root := by decide
    rw [hr]
    exact fun h => nomatch h

/-- Witness for C6 at a 404 response. -/
theorem fetch_failure_nonfatal_witness :
    ((404 : Nat) ≠ 200)
    ∧ (fetchVersionsJson (HttpOutcome.resp 404 "x")).1 = []
    ∧ (fetchVersionsJson (HttpOutcome.resp 404 "x")).2 ≠ []
    ∧ ((404 : Nat) = 404 →
        "ℹ️ Version file (versions.json) not found"
          ∈ (fetchVersionsJson (HttpOutcome.resp 404 "x")).2) :=
  ⟨by decide, (fetch_failure_nonfatal.1 404 "x" (by decide)).1,
    (fetch_failure_nonfatal.1 404 "x" (by decide)).2.1,
    (fetch_failure_nonfatal.1 404 "x" (by decide)).2.2.2⟩

end UnionBot
